import Mathlib

/-!
Verification of the block-range predicate generator
(`store/postgres/src/block_range.rs`) and the polling block ingestor
(`chain/ethereum/src/ingestor.rs`) of graph-node.

SQL generation is embedded as a small AST of the exact SQL atoms the Rust
code pushes (`push_sql` / `push_bind_param`), together with an evaluation
function giving the Postgres semantics of those atoms on a stored row.
Stateful/async ingestor code is embedded as explicit state passing over
oracle functions for the chain store and the Ethereum adapter; Rust panics
(`unreachable!`, `H256::from_slice` on a wrong-size slice) are modelled by
an explicit constructor.
-/

namespace GraphNode

/-- Result of running a piece of Rust code that may panic. `panicked`
models a Rust panic (it is not a recoverable value). -/
inductive PanicOr (α : Type) where
  | panicked (msg : String)
  | value (v : α)
deriving DecidableEq

/-- True iff the computation panicked. -/
def PanicOr.isPanicked {α : Type} : PanicOr α → Bool
  | .panicked _ => true
  | .value _ => false

/-! ## Embedding of `store/postgres/src/block_range.rs` -/

/-- `BLOCK_NUMBER_MAX` from the graph prelude; the in-repo test
`block_number_max_is_i32_max` pins it to `i32::MAX = 2147483647`. -/
def BLOCK_NUMBER_MAX : Int := 2147483647

/-- The SQL clause used to check that an entity version is current
(`block_range.rs` line 27). -/
def BLOCK_RANGE_CURRENT : String := "block_range @> 2147483647"

/-- Lower bound marking unversioned metadata entities (`block_range.rs` line 37). -/
def BLOCK_UNVERSIONED : Int := -1

/-- The fields of `crate::relational::Table` that `block_range.rs` reads:
`table.immutable` and `table.is_account_like`. -/
structure Table where
  immutable : Bool
  is_account_like : Bool
deriving DecidableEq

/-- The store-related environment configuration read by
`BlockRangeColumn::contains` (`ENV_VARS.store.use_brin_for_all_query_types`). -/
structure StoreEnvVars where
  use_brin_for_all_query_types : Bool
deriving DecidableEq

/-- A stored entity version row as the generated SQL sees it: for mutable
tables the columns `lower(block_range)` and `upper(block_range)` (where
`none` models an unbounded upper end, i.e. SQL NULL from `upper`), and
for immutable tables the column `block$` (field `blockCol`). -/
structure EntityRow where
  lower : Int
  upper : Option Int
  blockCol : Int
deriving DecidableEq

/-- The SQL predicate atoms emitted by `block_range.rs`, one constructor per
distinct fragment the Rust code pushes:
* `blockRangeContains pfx b` — `{pfx}block_range @> $b`
* `coalesceUpperGt b` — `coalesce(upper(block_range), 2147483647) > $b`
* `lowerLe b` — `lower(block_range) <= $b`
* `lowerGe b` — `lower(block_range) >= $b`
* `blockColLe pfx b` — `{pfx}block$ <= $b`
* `blockColGe b` — `block$ >= $b`
* `sqlTrue` — the literal SQL `true`
* `and p q` — `p and q` -/
inductive SqlPred where
  | blockRangeContains (tablePfx : String) (b : Int)
  | coalesceUpperGt (b : Int)
  | lowerLe (b : Int)
  | lowerGe (b : Int)
  | blockColLe (tablePfx : String) (b : Int)
  | blockColGe (b : Int)
  | sqlTrue
  | and (p q : SqlPred)
deriving DecidableEq

/-- Postgres semantics of the emitted predicate atoms on a stored row.
`block_range @> b` is containment of `b` in the half-open range
`[lower, upper)` (unbounded upper when `upper` is NULL);
`coalesce(upper(block_range), 2147483647)` replaces a NULL upper with
`BLOCK_NUMBER_MAX`. -/
def SqlPred.eval (r : EntityRow) : SqlPred → Bool
  | .blockRangeContains _ b =>
      decide (r.lower ≤ b) &&
        (match r.upper with
         | none => true
         | some u => decide (b < u))
  | .coalesceUpperGt b => decide (b < r.upper.getD BLOCK_NUMBER_MAX)
  | .lowerLe b => decide (r.lower ≤ b)
  | .lowerGe b => decide (b ≤ r.lower)
  | .blockColLe _ b => decide (r.blockCol ≤ b)
  | .blockColGe b => decide (b ≤ r.blockCol)
  | .sqlTrue => true
  | .and p q => p.eval r && q.eval r

/-- True iff the predicate contains the index-steering
`coalesce(upper(block_range), 2147483647) > $b` atom. -/
def SqlPred.hasSteeringConjunct : SqlPred → Bool
  | .and p q => p.hasSteeringConjunct || q.hasSteeringConjunct
  | .coalesceUpperGt _ => true
  | _ => false

/-- `BlockRangeColumn` (`block_range.rs` lines 221-232): a helper for
generating SQL fragments for the block range of entity versions. -/
inductive BlockRangeColumn where
  | Mutable (table : Table) (tablePfx : String) (block : Int)
  | Immutable (table : Table) (tablePfx : String) (block : Int)
deriving DecidableEq

/-- `BlockRangeColumn::new` (`block_range.rs` lines 235-249). -/
def BlockRangeColumn.new (table : Table) (tablePfx : String) (block : Int) : BlockRangeColumn :=
  if table.immutable then .Immutable table tablePfx block
  else .Mutable table tablePfx block

/-- The purely index-steering conjunct of `BlockRangeColumn::contains`
(`block_range.rs` lines 279-286):
`coalesce(upper(block_range), 2147483647) > $b and lower(block_range) <= $b`. -/
def steeringConjunct (block : Int) : SqlPred :=
  SqlPred.and (SqlPred.coalesceUpperGt block) (SqlPred.lowerLe block)

/-- `BlockRangeColumn::contains` (`block_range.rs` lines 257-303): for
mutable tables emit `block_range @> $block`, appending the steering
conjunct when the table is account-like, `block < BLOCK_NUMBER_MAX` and
`!filters_by_id || ENV_VARS.store.use_brin_for_all_query_types`; for
immutable tables emit `true` when `block = BLOCK_NUMBER_MAX` and
`block$ <= $block` otherwise. -/
def BlockRangeColumn.contains (c : BlockRangeColumn) (env : StoreEnvVars)
    (filters_by_id : Bool) : SqlPred :=
  match c with
  | .Mutable table tablePfx block =>
      let base := SqlPred.blockRangeContains tablePfx block
      let should_use_brin := !filters_by_id || env.use_brin_for_all_query_types
      if table.is_account_like && decide (block < BLOCK_NUMBER_MAX) && should_use_brin then
        SqlPred.and base (steeringConjunct block)
      else
        base
  | .Immutable _ tablePfx block =>
      if block = BLOCK_NUMBER_MAX then
        SqlPred.sqlTrue
      else
        SqlPred.blockColLe tablePfx block

/-- `BlockRangeColumn::latest` (`block_range.rs` lines 321-326): the
mutable arm pushes the raw clause `BLOCK_RANGE_CURRENT`, i.e.
`block_range @> 2147483647`; the immutable arm pushes `true`. -/
def BlockRangeColumn.latest : BlockRangeColumn → SqlPred
  | .Mutable _ _ _ => SqlPred.blockRangeContains "" BLOCK_NUMBER_MAX
  | .Immutable _ _ _ => SqlPred.sqlTrue

/-- The single mutation `block_range.rs` emits:
`setRange pfx b` is `{pfx}block_range = int4range(lower(block_range), $b)`. -/
inductive SqlAssign where
  | setRange (tablePfx : String) (block : Int)
deriving DecidableEq

/-- Semantics of the `setRange` mutation on a stored row:
`int4range(lower(block_range), b)` keeps the lower bound and makes `b`
the exclusive upper bound. -/
def SqlAssign.apply (a : SqlAssign) (r : EntityRow) : EntityRow :=
  match a with
  | .setRange _ block => ⟨r.lower, some block, r.blockCol⟩

/-- `BlockRangeColumn::clamp` (`block_range.rs` lines 334-349). The Rust
return type is `QueryResult<()>` (so an `Except`-style error is
representable), but the immutable arm does not construct an error: it hits
`unreachable!`, modelled by `PanicOr.panicked`. -/
def BlockRangeColumn.clamp : BlockRangeColumn → PanicOr (Except String SqlAssign)
  | .Mutable _ tablePfx block => .value (.ok (SqlAssign.setRange tablePfx block))
  | .Immutable _ _ _ => .panicked "immutable entities can not be updated or deleted"

/-- `BlockRangeColumn::changed_since` (`block_range.rs` lines 353-367):
`lower(block_range) >= $block` for mutable tables, `block$ >= $block` for
immutable ones. -/
def BlockRangeColumn.changed_since : BlockRangeColumn → SqlPred
  | .Mutable _ _ block => SqlPred.lowerGe block
  | .Immutable _ _ block => SqlPred.blockColGe block

/-! ### `EntityBlockRange` (`block_range.rs` lines 136-215) -/

/-- `std::ops::Bound<BlockNumber>` as used by `block_range.rs`. -/
inductive SqlBound where
  | included (b : Int)
  | excluded (b : Int)
  | unbounded
deriving DecidableEq

/-- `BlockRange` (`block_range.rs` line 55): a pair of bounds. -/
structure BlockRange where
  start : SqlBound
  finish : SqlBound
deriving DecidableEq

/-- `BoundSide` (`block_range.rs` lines 137-140). -/
inductive BoundSide where
  | lower
  | upper
deriving DecidableEq

/-- `EntityBlockRange` (`block_range.rs` lines 144-147). -/
inductive EntityBlockRange where
  | MutableR (br : BlockRange) (side : BoundSide)
  | ImmutableR (br : BlockRange)
deriving DecidableEq

/-- `EntityBlockRange::new` (`block_range.rs` lines 150-163): stores the
input `start..stop` as `(Included start, Excluded stop)`. -/
def EntityBlockRange.new (immutable : Bool) (range_start range_end : Int)
    (bound_side : BoundSide) : EntityBlockRange :=
  let start := SqlBound.included range_start
  let finish := SqlBound.excluded range_end
  let block_range : BlockRange := ⟨start, finish⟩
  if immutable then .ImmutableR block_range
  else .MutableR block_range bound_side

/-- The number emitted after `>= ` in `EntityBlockRange::contains`
(lines 182-189): `Included b` binds `b`, `Excluded b` binds `b` followed by
`+1`, `Unbounded` is `unimplemented!`. -/
def SqlBound.geValue : SqlBound → PanicOr Int
  | .included b => .value b
  | .excluded b => .value (b + 1)
  | .unbounded => .panicked "not implemented"

/-- The number emitted after `<= ` in `EntityBlockRange::contains`
(lines 193-199): `Included b` binds `b` followed by `+1`, `Excluded b`
binds `b`, `Unbounded` is `unimplemented!`. -/
def SqlBound.leValue : SqlBound → PanicOr Int
  | .included b => .value (b + 1)
  | .excluded b => .value b
  | .unbounded => .panicked "not implemented"

/-- The block range held by an `EntityBlockRange` (lines 174-177). -/
def EntityBlockRange.blockRange : EntityBlockRange → BlockRange
  | .MutableR br _ => br
  | .ImmutableR br => br

/-- `EntityBlockRange::contains` (lines 172-202) emits
`col >= $a and col <= $b` on the compare column; this returns the pair
`(a, b)` of emitted comparison bounds. -/
def EntityBlockRange.containsSql (e : EntityBlockRange) : PanicOr (Int × Int) :=
  match e.blockRange.start.geValue with
  | .panicked m => .panicked m
  | .value a =>
      match e.blockRange.finish.leValue with
      | .panicked m => .panicked m
      | .value b => .value (a, b)

/-- Semantics of the predicate emitted by `EntityBlockRange::contains` at a
value `v` of the compared column. -/
def EntityBlockRange.containsEval (e : EntityBlockRange) (v : Int) : PanicOr Bool :=
  match e.containsSql with
  | .panicked m => .panicked m
  | .value (a, b) => .value (decide (a ≤ v) && decide (v ≤ b))

/-! ## Embedding of `chain/ethereum/src/ingestor.rs`

The async methods of `PollingBlockIngestor` are embedded as pure functions
over an abstract chain-store state `σ`, with the chain store and the
Ethereum adapter given as oracle records. `ρ` is the type of the raw block
returned by `block_by_hash` and `φ` the type of the fully loaded block;
both are opaque payloads here. The unbounded `while let` loop of `do_poll`
is run on an explicit fuel. Each run also returns the list of log events
and effectful chain-store calls it made, in order. -/

/-- `BlockHash` (a boxed byte slice of arbitrary length). -/
abbrev BlockHash := List Nat

/-- `H256`: exactly 32 bytes. -/
abbrev H256 := {l : List Nat // l.length = 32}

/-- `impl From<H256> for BlockHash`: the raw 32 bytes. -/
def H256.toBlockHash (h : H256) : BlockHash := h.val

/-- `H256::from_slice`, which panics unless the slice has exactly 32
bytes; `none` models the panic. -/
def H256.from_slice (l : List Nat) : Option H256 :=
  if h : l.length = 32 then some ⟨l, h⟩ else none

/-- `BlockPtr`: block hash plus block number (an `i32` in Rust; block
numbers are small and nonnegative, so plain `Int` is faithful here). -/
structure BlockPtr where
  hash : BlockHash
  number : Int
deriving DecidableEq

/-- `IngestorError` (`graph/src/blockchain/mod.rs` lines 222-246);
`Unknown` wraps any other error, rendered as a string. -/
inductive IngestorError where
  | BlockUnavailable (hash : H256)
  | ReceiptUnavailable (block tx : H256)
  | BlockReceiptsUnavailable (hash : H256)
  | BlockReceiptsMismatched (hash : H256)
  | Unknown (err : String)
deriving DecidableEq

/-- The observable events of one poll cycle: the log statements of
`do_poll` and the effectful chain-store calls of `ingest_block`. -/
inductive Event where
  | logTrace
  | logWarnProviderWentBackwards
  | logInfoDownloadingLatest
  | logInfoSyncing (lagging : Bool)
  | callUpsertBlock
  | callAttemptChainHeadUpdate
deriving DecidableEq

/-- The `ChainStore` operations `ingestor.rs` uses, as functions of an
abstract store state `σ`; errors are the store's `anyhow::Error`, rendered
as a string. -/
structure ChainStoreOps (σ φ : Type) where
  chain_head_ptr : σ → Except String (Option BlockPtr)
  upsert_block : σ → φ → Except String σ
  attempt_chain_head_update : σ → Int → Except String (σ × Option H256)

/-- The `EthereumAdapter` operations `ingestor.rs` uses.
`latest_block_header` yields the header's hash and number, from which
`latest_block` builds a `BlockPtr` via `.into()`. -/
structure EthAdapter (ρ φ : Type) where
  latest_block_header : Except IngestorError (H256 × Int)
  block_by_hash : H256 → Except IngestorError (Option ρ)
  load_full_block : ρ → Except IngestorError φ

/-- The fields of `PollingBlockIngestor` the embedded methods read. -/
structure PollingBlockIngestor (σ ρ φ : Type) where
  ancestor_count : Int
  chain_store : ChainStoreOps σ φ

/-- `PollingBlockIngestor::ingest_block` (`ingestor.rs` lines 165-202):
convert the hash with `H256::from_slice` (panics unless 32 bytes), fetch
the block (`Ok(None)` becomes `BlockUnavailable`), load the full block,
upsert it, then `attempt_chain_head_update(ancestor_count)`, whose missing
ancestor (an `H256`) is converted back into a `BlockHash`. Store errors
are wrapped in `IngestorError::Unknown`. -/
def ingest_block {σ ρ φ : Type} (I : PollingBlockIngestor σ ρ φ) (adapter : EthAdapter ρ φ)
    (s : σ) (block_hash : BlockHash) :
    PanicOr (Except IngestorError (σ × List Event × Option BlockHash)) :=
  match H256.from_slice block_hash with
  | none => .panicked "H256 from_slice requires a 32 byte slice"
  | some bh =>
    match adapter.block_by_hash bh with
    | .error e => .value (.error e)
    | .ok none => .value (.error (.BlockUnavailable bh))
    | .ok (some raw) =>
      match adapter.load_full_block raw with
      | .error e => .value (.error e)
      | .ok ethereum_block =>
        match I.chain_store.upsert_block s ethereum_block with
        | .error e => .value (.error (.Unknown e))
        | .ok s1 =>
          match I.chain_store.attempt_chain_head_update s1 I.ancestor_count with
          | .error e => .value (.error (.Unknown e))
          | .ok (s2, missing) =>
            .value (.ok (s2, [Event.callUpsertBlock, Event.callAttemptChainHeadUpdate],
              missing.map H256.toBlockHash))

/-- The `while let Some(hash) = missing_block_hash` loop of `do_poll`
(`ingestor.rs` lines 159-161), on explicit fuel, abstracted over the
ingest step. It returns the final state, the accumulated events, and the
remaining missing hash (`none` once the window is fully connected;
`some _` only if the fuel ran out first). -/
def fill_missing_loop {σ : Type}
    (ingest : σ → BlockHash → PanicOr (Except IngestorError (σ × List Event × Option BlockHash))) :
    Nat → σ → List Event → Option BlockHash →
    PanicOr (Except IngestorError (σ × List Event × Option BlockHash))
  | _, s, log, none => .value (.ok (s, log, none))
  | 0, s, log, some h => .value (.ok (s, log, some h))
  | fuel + 1, s, log, some h =>
    match ingest s h with
    | .panicked m => .panicked m
    | .value (.error e) => .value (.error e)
    | .value (.ok (s1, ev, m1)) => fill_missing_loop ingest fuel s1 (log ++ ev) m1

/-- True iff the loop result reached "no missing ancestor" successfully. -/
def reachedNoMissing {σ : Type} :
    PanicOr (Except IngestorError (σ × List Event × Option BlockHash)) → Bool
  | .value (.ok (_, _, none)) => true
  | _ => false

/-- The status block of `do_poll` (`ingestor.rs` lines 100-131): cold
start logs a download notice; otherwise, when the distance is positive, a
sync notice whose code is `BlockIngestionLagging` when the distance is at
least 15. Observational only. -/
def syncStatusLog (head_block_ptr_opt : Option BlockPtr) (latest_block : BlockPtr)
    (ancestor_count : Int) : List Event :=
  match head_block_ptr_opt with
  | none => [Event.logInfoDownloadingLatest]
  | some head_block_ptr =>
    let distance := latest_block.number - head_block_ptr.number
    let _blocks_needed := min distance ancestor_count
    if distance > 0 then [Event.logInfoSyncing (decide (distance ≥ 15))] else []

/-- The tail of `do_poll` (`ingestor.rs` lines 133-162): ingest the latest
block, then repeatedly ingest missing ancestors. -/
def do_poll_ingest {σ ρ φ : Type} (I : PollingBlockIngestor σ ρ φ) (adapter : EthAdapter ρ φ)
    (fuel : Nat) (s : σ) (log : List Event) (latest_block : BlockPtr) :
    PanicOr (Except IngestorError (σ × List Event)) :=
  match ingest_block I adapter s latest_block.hash with
  | .panicked m => .panicked m
  | .value (.error e) => .value (.error e)
  | .value (.ok (s1, ev1, missing)) =>
    match fill_missing_loop (fun st h => ingest_block I adapter st h) fuel s1 (log ++ ev1) missing with
    | .panicked m => .panicked m
    | .value (.error e) => .value (.error e)
    | .value (.ok (s2, log2, _)) => .value (.ok (s2, log2))

/-- `PollingBlockIngestor::do_poll` (`ingestor.rs` lines 67-163): read the
chain head from the store, fetch the latest header, return at once when it
equals the head, warn and return unchanged when the provider went
backwards, otherwise log status and ingest. -/
def do_poll {σ ρ φ : Type} (I : PollingBlockIngestor σ ρ φ) (adapter : EthAdapter ρ φ)
    (fuel : Nat) (s : σ) : PanicOr (Except IngestorError (σ × List Event)) :=
  let log0 : List Event := [Event.logTrace]
  match I.chain_store.chain_head_ptr s with
  | .error e => .value (.error (.Unknown e))
  | .ok head_block_ptr_opt =>
    match adapter.latest_block_header with
    | .error e => .value (.error e)
    | .ok (lh, ln) =>
      let latest_block : BlockPtr := ⟨lh.toBlockHash, ln⟩
      match head_block_ptr_opt with
      | some head_block =>
        if latest_block = head_block then
          .value (.ok (s, log0))
        else if latest_block.number < head_block.number then
          .value (.ok (s, log0 ++ [Event.logWarnProviderWentBackwards]))
        else
          do_poll_ingest I adapter fuel s
            (log0 ++ syncStatusLog (some head_block) latest_block I.ancestor_count) latest_block
      | none =>
          do_poll_ingest I adapter fuel s
            (log0 ++ syncStatusLog none latest_block I.ancestor_count) latest_block

/-! ### Concrete sample instances used by the witness theorems -/

/-- A concrete 32-byte hash. -/
def h256zero : H256 := ⟨List.replicate 32 0, by decide⟩

/-- A sample chain store over the trivial state: head at block 10, upsert
is a no-op, head update always succeeds with no missing ancestor. -/
def sampleChainStore : ChainStoreOps Unit Unit where
  chain_head_ptr := fun _ => .ok (some ⟨h256zero.toBlockHash, 10⟩)
  upsert_block := fun s _ => .ok s
  attempt_chain_head_update := fun s _ => .ok (s, none)

/-- A sample ingestor with `ancestor_count = 3`. -/
def sampleIngestor : PollingBlockIngestor Unit Unit Unit := ⟨3, sampleChainStore⟩

/-- A sample adapter whose latest header is block 5 — behind the stored
head at block 10. -/
def sampleAdapter : EthAdapter Unit Unit where
  latest_block_header := .ok (h256zero, 5)
  block_by_hash := fun _ => .ok (some ())
  load_full_block := fun _ => .ok ()

/-- A sample ingest step for the ancestor-filling loop: always succeeds
and reports no missing ancestor. -/
def sampleIngestStep : Unit → BlockHash →
    PanicOr (Except IngestorError (Unit × List Event × Option BlockHash)) :=
  fun s _ => .value (.ok (s, [], none))

/-- A sample block-numbering of hashes. -/
def sampleNum : BlockHash → Int := fun _ => 0

/-! ## Theorems -/

/-- Claim C3, counterexample: appending the index-steering conjunct to the
plain containment predicate is NOT always result-set-preserving. At target
block `b = BLOCK_NUMBER_MAX` and a current row (unbounded upper end), the
plain predicate `block_range @> 2147483647` holds but
`coalesce(upper(block_range), 2147483647) > 2147483647` fails, so the
conjoined predicate rejects the row. This is exactly the case the source
guards against with `*block < BLOCK_NUMBER_MAX`. -/
theorem claim_C3_counterexample :
    SqlPred.eval ⟨0, none, 0⟩
        (SqlPred.and (SqlPred.blockRangeContains "" BLOCK_NUMBER_MAX)
          (steeringConjunct BLOCK_NUMBER_MAX))
      ≠ SqlPred.eval ⟨0, none, 0⟩ (SqlPred.blockRangeContains "" BLOCK_NUMBER_MAX) := by
  decide

/-- Claim C3, amended: for every mutable entity row and every target block
`b < BLOCK_NUMBER_MAX` — the only case in which
`BlockRangeColumn::contains` appends the conjunct — the containment
predicate with the index-steering conjunct appended is satisfied by
exactly the same rows as the plain containment predicate. -/
theorem claim_C3_amended (r : EntityRow) (b : Int) (hb : b < BLOCK_NUMBER_MAX) :
    SqlPred.eval r (SqlPred.and (SqlPred.blockRangeContains "" b) (steeringConjunct b))
      = SqlPred.eval r (SqlPred.blockRangeContains "" b) := by
  rcases r with ⟨lo, up, bc⟩
  have hb' : b < (2147483647 : Int) := hb
  cases up with
  | none =>
      simp only [SqlPred.eval, steeringConjunct, Option.getD, BLOCK_NUMBER_MAX]
      rw [Bool.eq_iff_iff]
      simp only [Bool.and_eq_true, decide_eq_true_eq, Bool.and_true, Bool.true_and]
      constructor
      · rintro ⟨h1, _⟩; exact h1
      · intro h1; exact ⟨h1, by omega, h1⟩
  | some u =>
      simp only [SqlPred.eval, steeringConjunct, Option.getD]
      rw [Bool.eq_iff_iff]
      simp only [Bool.and_eq_true, decide_eq_true_eq]
      constructor
      · rintro ⟨⟨h1, h2⟩, _⟩; exact ⟨h1, h2⟩
      · rintro ⟨h1, h2⟩; exact ⟨⟨h1, h2⟩, h2, h1⟩

/-- Witness for the amended claim C3 at a concrete row and block. -/
theorem claim_C3_amended_witness :
    (0 : Int) < BLOCK_NUMBER_MAX ∧
      SqlPred.eval ⟨5, some 20, 0⟩
          (SqlPred.and (SqlPred.blockRangeContains "" 0) (steeringConjunct 0))
        = SqlPred.eval ⟨5, some 20, 0⟩ (SqlPred.blockRangeContains "" 0) :=
  ⟨by decide, claim_C3_amended ⟨5, some 20, 0⟩ 0 (by decide)⟩

/-- Claim C4: for mutable kinds `BlockRangeColumn::latest` emits the test
`block_range @> 2147483647` (`BLOCK_RANGE_CURRENT`), which holds for a
stored range iff its upper end is unbounded — given that lower bounds and
every bounded (exclusive) upper bound are at most `i32::MAX`; for
immutable kinds the emitted predicate is the constant `true`. -/
theorem claim_C4_latest_selects_unbounded (t : Table) (pfx : String) (b : Int)
    (r : EntityRow) (hlo : r.lower ≤ BLOCK_NUMBER_MAX)
    (hup : ∀ u, r.upper = some u → u ≤ BLOCK_NUMBER_MAX) :
    (BlockRangeColumn.Mutable t pfx b).latest = SqlPred.blockRangeContains "" BLOCK_NUMBER_MAX
    ∧ (SqlPred.eval r ((BlockRangeColumn.Mutable t pfx b).latest) = true ↔ r.upper = none)
    ∧ (BlockRangeColumn.Immutable t pfx b).latest = SqlPred.sqlTrue
    ∧ SqlPred.eval r ((BlockRangeColumn.Immutable t pfx b).latest) = true := by
  refine ⟨rfl, ?_, rfl, rfl⟩
  rcases r with ⟨lo, up, bc⟩
  simp only at hlo hup
  cases up with
  | none =>
      simp [BlockRangeColumn.latest, SqlPred.eval, hlo]
  | some u =>
      have hu : u ≤ BLOCK_NUMBER_MAX := hup u rfl
      simp only [BlockRangeColumn.latest, SqlPred.eval, Bool.and_eq_true, decide_eq_true_eq]
      constructor
      · rintro ⟨_, h2⟩
        exact absurd h2 (by omega)
      · intro h; cases h

/-- Witness for claim C4 at a concrete current row. -/
theorem claim_C4_witness :
    ((7 : Int) ≤ BLOCK_NUMBER_MAX
      ∧ (∀ u : Int, (none : Option Int) = some u → u ≤ BLOCK_NUMBER_MAX))
    ∧ ((BlockRangeColumn.Mutable ⟨false, false⟩ "c." 42).latest
          = SqlPred.blockRangeContains "" BLOCK_NUMBER_MAX
        ∧ (SqlPred.eval ⟨7, none, 0⟩ ((BlockRangeColumn.Mutable ⟨false, false⟩ "c." 42).latest)
              = true ↔ (⟨7, none, 0⟩ : EntityRow).upper = none)
        ∧ (BlockRangeColumn.Immutable ⟨false, false⟩ "c." 42).latest = SqlPred.sqlTrue
        ∧ SqlPred.eval ⟨7, none, 0⟩ ((BlockRangeColumn.Immutable ⟨false, false⟩ "c." 42).latest)
            = true) :=
  ⟨⟨by decide, by intro u h; cases h⟩,
    claim_C4_latest_selects_unbounded ⟨false, false⟩ "c." 42 ⟨7, none, 0⟩ (by decide)
      (by intro u h; cases h)⟩

/-- Claim C5: `BlockRangeColumn::clamp` on a mutable kind emits the
mutation `block_range = int4range(lower(block_range), $block)`, whose
effect on a row keeps the lower bound and makes `block` the (exclusive)
upper bound; on an immutable kind it panics via `unreachable!` and in
particular never returns a recoverable error value. -/
theorem claim_C5_clamp (t : Table) (pfx : String) (b : Int) (r : EntityRow) :
    (BlockRangeColumn.Mutable t pfx b).clamp = .value (.ok (SqlAssign.setRange pfx b))
    ∧ (SqlAssign.setRange pfx b).apply r = ⟨r.lower, some b, r.blockCol⟩
    ∧ ((SqlAssign.setRange pfx b).apply r).lower = r.lower
    ∧ ((SqlAssign.setRange pfx b).apply r).upper = some b
    ∧ (BlockRangeColumn.Immutable t pfx b).clamp
        = .panicked "immutable entities can not be updated or deleted"
    ∧ ∀ e, (BlockRangeColumn.Immutable t pfx b).clamp ≠ .value (.error e) := by
  refine ⟨rfl, rfl, rfl, rfl, rfl, ?_⟩
  intro e h
  cases h

/-- Claim C6: for every block `b`, `BlockRangeColumn::changed_since` emits
`lower(block_range) >= $b` for mutable kinds and `block$ >= $b` for
immutable kinds, and a row satisfies the emitted predicate iff its
activation bound (`lower` resp. `block$`) is at least `b`. -/
theorem claim_C6_changed_since (t : Table) (pfx : String) (b : Int) (r : EntityRow) :
    (BlockRangeColumn.Mutable t pfx b).changed_since = SqlPred.lowerGe b
    ∧ (BlockRangeColumn.Immutable t pfx b).changed_since = SqlPred.blockColGe b
    ∧ (SqlPred.eval r ((BlockRangeColumn.Mutable t pfx b).changed_since) = true ↔ b ≤ r.lower)
    ∧ (SqlPred.eval r ((BlockRangeColumn.Immutable t pfx b).changed_since) = true
        ↔ b ≤ r.blockCol) := by
  refine ⟨rfl, rfl, ?_, ?_⟩ <;>
    simp [BlockRangeColumn.changed_since, SqlPred.eval]

/-- Claim C7, counterexample: it is false that the steering conjunct is
absent from every call with `filters_by_id = true` and present in every
call with `filters_by_id = false` and the flag enabled. With the flag
enabled and an account-like table it is present even though
`filters_by_id = true`; and for a non-account-like table it is absent even
though `filters_by_id = false` and the flag is enabled. -/
theorem claim_C7_counterexample :
    ¬ ((∀ (c : BlockRangeColumn) (env : StoreEnvVars) (f : Bool), f = true →
          (c.contains env f).hasSteeringConjunct = false)
        ∧ (∀ (c : BlockRangeColumn) (env : StoreEnvVars) (f : Bool), f = false →
            env.use_brin_for_all_query_types = true →
            (c.contains env f).hasSteeringConjunct = true)) := by
  rintro ⟨h1, h2⟩
  have hx := h1 (BlockRangeColumn.Mutable ⟨false, true⟩ "" 0) ⟨true⟩ true rfl
  have hy := h2 (BlockRangeColumn.Mutable ⟨false, false⟩ "" 0) ⟨true⟩ false rfl rfl
  rw [show ((BlockRangeColumn.Mutable ⟨false, true⟩ "" 0).contains ⟨true⟩
      true).hasSteeringConjunct = true by decide] at hx
  cases hx

/-- Claim C7, amended: the steering conjunct is appended exactly when the
table is account-like, the target block is below `BLOCK_NUMBER_MAX`, and
either the caller does not filter by id or
`use_brin_for_all_query_types` is enabled; it never appears for immutable
kinds. -/
theorem claim_C7_amended (t : Table) (pfx : String) (b : Int) (env : StoreEnvVars)
    (f : Bool) :
    (((BlockRangeColumn.Mutable t pfx b).contains env f).hasSteeringConjunct
        = (t.is_account_like && decide (b < BLOCK_NUMBER_MAX)
            && (!f || env.use_brin_for_all_query_types)))
    ∧ ((BlockRangeColumn.Immutable t pfx b).contains env f).hasSteeringConjunct = false := by
  constructor
  · cases hc : (t.is_account_like && decide (b < BLOCK_NUMBER_MAX)
        && (!f || env.use_brin_for_all_query_types)) <;>
      simp [BlockRangeColumn.contains, SqlPred.hasSteeringConjunct, steeringConjunct, hc]
  · by_cases hb : b = BLOCK_NUMBER_MAX <;>
      simp [BlockRangeColumn.contains, SqlPred.hasSteeringConjunct, hb]

/-- Claim C8: for immutable kinds `BlockRangeColumn::contains` emits the
constant `true` when `block = BLOCK_NUMBER_MAX` and `block$ <= $block`
otherwise; since every stored block number is at most `i32::MAX`, the
emitted predicate selects exactly the rows with `block$ <= block`. -/
theorem claim_C8_immutable_contains (t : Table) (pfx : String) (b : Int)
    (env : StoreEnvVars) (f : Bool) (r : EntityRow)
    (hb : r.blockCol ≤ BLOCK_NUMBER_MAX) :
    ((BlockRangeColumn.Immutable t pfx b).contains env f
        = if b = BLOCK_NUMBER_MAX then SqlPred.sqlTrue else SqlPred.blockColLe pfx b)
    ∧ SqlPred.eval r ((BlockRangeColumn.Immutable t pfx b).contains env f)
        = decide (r.blockCol ≤ b) := by
  by_cases hbm : b = BLOCK_NUMBER_MAX
  · subst hbm
    refine ⟨by simp [BlockRangeColumn.contains], ?_⟩
    simp only [BlockRangeColumn.contains, if_pos rfl, SqlPred.eval]
    exact (decide_eq_true hb).symm
  · refine ⟨by simp [BlockRangeColumn.contains, hbm], ?_⟩
    simp [BlockRangeColumn.contains, hbm, SqlPred.eval]

/-- Witness for claim C8 at a concrete row and block. -/
theorem claim_C8_witness :
    ((5 : Int) ≤ BLOCK_NUMBER_MAX)
    ∧ (((BlockRangeColumn.Immutable ⟨true, false⟩ "" 7).contains ⟨false⟩ false
          = if (7 : Int) = BLOCK_NUMBER_MAX then SqlPred.sqlTrue
            else SqlPred.blockColLe "" 7)
        ∧ SqlPred.eval ⟨0, none, 5⟩
            ((BlockRangeColumn.Immutable ⟨true, false⟩ "" 7).contains ⟨false⟩ false)
          = decide ((5 : Int) ≤ 7)) :=
  ⟨by decide,
    claim_C8_immutable_contains ⟨true, false⟩ "" 7 ⟨false⟩ false ⟨0, none, 5⟩ (by decide)⟩

/-- Claim C10: `EntityBlockRange::new` stores `[s, e)` as
`(Included s, Excluded e)`, and `EntityBlockRange::contains` emits
`col >= $s and col <= $e` on the compared column — so the emitted
predicate holds at exactly the values of the closed interval `[s, e]` and
accepts the border value `e` itself (whenever `s ≤ e`), rather than
matching the half-open input interval `[s, e)`. -/
theorem claim_C10_contains_closed_interval (immutable : Bool) (s e : Int)
    (side : BoundSide) :
    (EntityBlockRange.new immutable s e side).blockRange
        = ⟨SqlBound.included s, SqlBound.excluded e⟩
    ∧ (EntityBlockRange.new immutable s e side).containsSql = .value (s, e)
    ∧ (∀ v : Int, (EntityBlockRange.new immutable s e side).containsEval v
        = .value (decide (s ≤ v ∧ v ≤ e)))
    ∧ (EntityBlockRange.new immutable s e side).containsEval e = .value (decide (s ≤ e)) := by
  have hbr : (EntityBlockRange.new immutable s e side).blockRange
      = ⟨SqlBound.included s, SqlBound.excluded e⟩ := by
    cases immutable <;> rfl
  have hsql : (EntityBlockRange.new immutable s e side).containsSql = .value (s, e) := by
    rw [EntityBlockRange.containsSql, hbr]
    rfl
  refine ⟨hbr, hsql, ?_, ?_⟩
  · intro v
    rw [EntityBlockRange.containsEval, hsql]
    simp [Bool.decide_and]
  · rw [EntityBlockRange.containsEval, hsql]
    simp

/-! ### Ingestor theorems -/

/-- Claim C1: if the source reports a latest block whose number is
strictly below the stored head's number, `do_poll` emits exactly the
provider-went-backwards warning and returns `Ok(())` with the store state
untouched: no block is ingested, no upsert or head-update call is made,
and no error is raised. -/
theorem claim_C1_provider_backwards {σ ρ φ : Type}
    (I : PollingBlockIngestor σ ρ φ) (adapter : EthAdapter ρ φ) (fuel : Nat) (s : σ)
    (head_block : BlockPtr) (lh : H256) (ln : Int)
    (hhead : I.chain_store.chain_head_ptr s = .ok (some head_block))
    (hlatest : adapter.latest_block_header = .ok (lh, ln))
    (hlt : ln < head_block.number) :
    do_poll I adapter fuel s
      = .value (.ok (s, [Event.logTrace, Event.logWarnProviderWentBackwards])) := by
  have hne : (⟨lh.toBlockHash, ln⟩ : BlockPtr) ≠ head_block := by
    intro h
    have hnum : (⟨lh.toBlockHash, ln⟩ : BlockPtr).number = head_block.number := by rw [h]
    simp only at hnum
    omega
  unfold do_poll
  rw [hhead, hlatest]
  simp [hne, hlt]

/-- Witness for claim C1: the sample store has its head at block 10 while
the sample adapter reports block 5. -/
theorem claim_C1_witness :
    (sampleIngestor.chain_store.chain_head_ptr ()
        = .ok (some ⟨h256zero.toBlockHash, 10⟩)
      ∧ sampleAdapter.latest_block_header = .ok (h256zero, 5)
      ∧ (5 : Int) < (⟨h256zero.toBlockHash, 10⟩ : BlockPtr).number)
    ∧ do_poll sampleIngestor sampleAdapter 0 ()
        = .value (.ok ((), [Event.logTrace, Event.logWarnProviderWentBackwards])) :=
  ⟨⟨rfl, rfl, by decide⟩,
    claim_C1_provider_backwards sampleIngestor sampleAdapter 0 ()
      ⟨h256zero.toBlockHash, 10⟩ h256zero 5 rfl rfl (by decide)⟩

/-- The ancestor-filling loop reaches "no missing ancestor" with fuel
`fuel` whenever the ingest step always succeeds, every reported missing
ancestor's number strictly decreases, those numbers are bounded below by
`B`, and the starting hash's number lies in `[B, B + fuel)`. -/
theorem fill_missing_loop_reaches_none {σ : Type}
    (ingest : σ → BlockHash → PanicOr (Except IngestorError (σ × List Event × Option BlockHash)))
    (num : BlockHash → Int) (B : Int)
    (hsucc : ∀ s h, ∃ s1 ev m, ingest s h = .value (.ok (s1, ev, m)))
    (hdec : ∀ s h s1 ev h1, ingest s h = .value (.ok (s1, ev, some h1)) → num h1 < num h)
    (hlow : ∀ s h s1 ev h1, ingest s h = .value (.ok (s1, ev, some h1)) → B ≤ num h1) :
    ∀ (fuel : Nat) (s : σ) (log : List Event) (h : BlockHash),
      B ≤ num h → num h < B + fuel →
      reachedNoMissing (fill_missing_loop ingest fuel s log (some h)) = true := by
  intro fuel
  induction fuel with
  | zero =>
      intro s log h hB hlt
      exfalso
      omega
  | succ n ih =>
      intro s log h hB hlt
      obtain ⟨s1, ev, m, hm⟩ := hsucc s h
      rw [fill_missing_loop, hm]
      cases m with
      | none =>
          simp [fill_missing_loop, reachedNoMissing]
      | some h1 =>
          apply ih s1 (log ++ ev) h1 (hlow s h s1 ev h1 hm)
          have := hdec s h s1 ev h1 hm
          omega

/-- Claim C2: under the hypotheses that every missing-ancestor hash the
cache returns names a block whose number is strictly less than the
previous iteration's and that these numbers are bounded below by
`latest.number − ancestor_count` (with the first missing ancestor below
`latest.number`), the `while let` loop over `ingest_block` reaches "no
missing ancestor" within at most `ancestor_count` iterations; and when
the numbers are bounded below by `latest.number − D` for a depth
`D ≤ ancestor_count`, within at most `D` iterations. -/
theorem claim_C2_ancestor_fill_terminates {σ : Type}
    (ingest : σ → BlockHash → PanicOr (Except IngestorError (σ × List Event × Option BlockHash)))
    (num : BlockHash → Int) (L : Int) (A : Nat) (s0 : σ) (log0 : List Event) (h0 : BlockHash)
    (hsucc : ∀ s h, ∃ s1 ev m, ingest s h = .value (.ok (s1, ev, m)))
    (hdec : ∀ s h s1 ev h1, ingest s h = .value (.ok (s1, ev, some h1)) → num h1 < num h)
    (hlow : ∀ s h s1 ev h1, ingest s h = .value (.ok (s1, ev, some h1)) → L - A ≤ num h1)
    (h0dec : num h0 < L) (h0low : L - A ≤ num h0) :
    reachedNoMissing (fill_missing_loop ingest A s0 log0 (some h0)) = true
    ∧ ∀ (D : Nat), D ≤ A →
        (∀ s h s1 ev h1, ingest s h = .value (.ok (s1, ev, some h1)) → L - D ≤ num h1) →
        L - D ≤ num h0 →
        reachedNoMissing (fill_missing_loop ingest D s0 log0 (some h0)) = true := by
  constructor
  · exact fill_missing_loop_reaches_none ingest num (L - A) hsucc hdec hlow A s0 log0 h0
      h0low (by omega)
  · intro D hD hlowD h0lowD
    exact fill_missing_loop_reaches_none ingest num (L - D) hsucc hdec hlowD D s0 log0 h0
      h0lowD (by omega)

/-- Witness for claim C2 with the sample ingest step (which immediately
reports no missing ancestor), `latest.number = 1` and
`ancestor_count = 1`. -/
theorem claim_C2_witness :
    ((∀ (s : Unit) (h : BlockHash), ∃ s1 ev m,
        sampleIngestStep s h = .value (.ok (s1, ev, m)))
      ∧ (∀ (s : Unit) (h : BlockHash) (s1 : Unit) (ev : List Event) (h1 : BlockHash),
          sampleIngestStep s h = .value (.ok (s1, ev, some h1)) → sampleNum h1 < sampleNum h)
      ∧ (∀ (s : Unit) (h : BlockHash) (s1 : Unit) (ev : List Event) (h1 : BlockHash),
          sampleIngestStep s h = .value (.ok (s1, ev, some h1))
            → (1 : Int) - (1 : Nat) ≤ sampleNum h1)
      ∧ sampleNum [] < (1 : Int)
      ∧ (1 : Int) - (1 : Nat) ≤ sampleNum [])
    ∧ (reachedNoMissing (fill_missing_loop sampleIngestStep 1 () [] (some [])) = true
        ∧ ∀ (D : Nat), D ≤ 1 →
            (∀ (s : Unit) (h : BlockHash) (s1 : Unit) (ev : List Event) (h1 : BlockHash),
              sampleIngestStep s h = .value (.ok (s1, ev, some h1))
                → (1 : Int) - D ≤ sampleNum h1) →
            (1 : Int) - D ≤ sampleNum [] →
            reachedNoMissing (fill_missing_loop sampleIngestStep D () [] (some [])) = true) := by
  have w1 : ∀ (s : Unit) (h : BlockHash), ∃ s1 ev m,
      sampleIngestStep s h = .value (.ok (s1, ev, m)) :=
    fun _ _ => ⟨(), [], none, rfl⟩
  have w2 : ∀ (s : Unit) (h : BlockHash) (s1 : Unit) (ev : List Event) (h1 : BlockHash),
      sampleIngestStep s h = .value (.ok (s1, ev, some h1)) → sampleNum h1 < sampleNum h := by
    intro s h s1 ev h1 heq
    simp [sampleIngestStep] at heq
  have w3 : ∀ (s : Unit) (h : BlockHash) (s1 : Unit) (ev : List Event) (h1 : BlockHash),
      sampleIngestStep s h = .value (.ok (s1, ev, some h1))
        → (1 : Int) - (1 : Nat) ≤ sampleNum h1 := by
    intro s h s1 ev h1 heq
    simp [sampleIngestStep] at heq
  have w4 : sampleNum [] < (1 : Int) := by decide
  have w5 : (1 : Int) - (1 : Nat) ≤ sampleNum [] := by decide
  exact ⟨⟨w1, w2, w3, w4, w5⟩,
    claim_C2_ancestor_fill_terminates sampleIngestStep sampleNum 1 1 () [] [] w1 w2 w3 w4 w5⟩

/-- `ingest_block` panics exactly when its hash argument is not 32 bytes
long: the `H256::from_slice` conversion is the only panic site. -/
theorem ingest_block_isPanicked_iff {σ ρ φ : Type} (I : PollingBlockIngestor σ ρ φ)
    (adapter : EthAdapter ρ φ) (s : σ) (h : BlockHash) :
    (ingest_block I adapter s h).isPanicked = true ↔ h.length ≠ 32 := by
  unfold ingest_block H256.from_slice
  by_cases hl : h.length = 32
  · rw [dif_pos hl]
    dsimp only
    cases hbb : adapter.block_by_hash ⟨h, hl⟩ with
    | error e => simp [PanicOr.isPanicked, hl]
    | ok ob =>
      cases ob with
      | none => simp [PanicOr.isPanicked, hl]
      | some raw =>
        dsimp only
        cases hlf : adapter.load_full_block raw with
        | error e => simp [PanicOr.isPanicked, hl]
        | ok fb =>
          dsimp only
          cases hub : I.chain_store.upsert_block s fb with
          | error e => simp [PanicOr.isPanicked, hl]
          | ok s1 =>
            dsimp only
            cases hac : I.chain_store.attempt_chain_head_update s1 I.ancestor_count with
            | error e => simp [PanicOr.isPanicked, hl]
            | ok p =>
              obtain ⟨s2, missing⟩ := p
              simp [PanicOr.isPanicked, hl]
  · rw [dif_neg hl]
    simp [PanicOr.isPanicked, hl]

/-- `ingest_block` does not panic on a 32-byte hash. -/
theorem ingest_block_not_panicked {σ ρ φ : Type} (I : PollingBlockIngestor σ ρ φ)
    (adapter : EthAdapter ρ φ) (s : σ) (h : BlockHash) (hl : h.length = 32) :
    (ingest_block I adapter s h).isPanicked = false := by
  cases hp : (ingest_block I adapter s h).isPanicked with
  | false => rfl
  | true =>
      exact absurd hl ((ingest_block_isPanicked_iff I adapter s h).mp hp)

/-- Every missing-ancestor hash returned by `ingest_block` has 32 bytes:
it is the conversion of the `H256` the chain store returned. -/
theorem ingest_block_missing_length {σ ρ φ : Type} (I : PollingBlockIngestor σ ρ φ)
    (adapter : EthAdapter ρ φ) (s : σ) (h : BlockHash) (s1 : σ) (ev : List Event)
    (h1 : BlockHash) (heq : ingest_block I adapter s h = .value (.ok (s1, ev, some h1))) :
    h1.length = 32 := by
  unfold ingest_block at heq
  cases hfs : H256.from_slice h with
  | none => rw [hfs] at heq; simp at heq
  | some bh =>
    rw [hfs] at heq
    dsimp only at heq
    cases hbb : adapter.block_by_hash bh with
    | error e => rw [hbb] at heq; simp at heq
    | ok ob =>
      rw [hbb] at heq
      cases ob with
      | none => simp at heq
      | some raw =>
        dsimp only at heq
        cases hlf : adapter.load_full_block raw with
        | error e => rw [hlf] at heq; simp at heq
        | ok fb =>
          rw [hlf] at heq
          dsimp only at heq
          cases hub : I.chain_store.upsert_block s fb with
          | error e => rw [hub] at heq; simp at heq
          | ok sA =>
            rw [hub] at heq
            dsimp only at heq
            cases hac : I.chain_store.attempt_chain_head_update sA I.ancestor_count with
            | error e => rw [hac] at heq; simp at heq
            | ok p =>
              obtain ⟨s2, missing⟩ := p
              rw [hac] at heq
              dsimp only at heq
              cases missing with
              | none => simp at heq
              | some m =>
                simp only [Option.map_some', PanicOr.value.injEq, Except.ok.injEq,
                  Prod.mk.injEq, Option.some.injEq] at heq
                obtain ⟨-, -, hm⟩ := heq
                rw [← hm]
                exact m.property

/-- The ancestor-filling loop driven by `ingest_block` never panics when
started on a missing hash of 32 bytes (or none). -/
theorem fill_missing_loop_not_panicked {σ ρ φ : Type} (I : PollingBlockIngestor σ ρ φ)
    (adapter : EthAdapter ρ φ) :
    ∀ (fuel : Nat) (s : σ) (log : List Event) (m : Option BlockHash),
      (∀ h, m = some h → h.length = 32) →
      (fill_missing_loop (fun st h => ingest_block I adapter st h) fuel s log m).isPanicked
        = false := by
  intro fuel
  induction fuel with
  | zero =>
      intro s log m _
      cases m <;> rfl
  | succ n ih =>
      intro s log m hm
      cases m with
      | none => rfl
      | some h =>
          have hl : h.length = 32 := hm h rfl
          rw [fill_missing_loop]
          cases hib : ingest_block I adapter s h with
          | panicked msg =>
              have hnp := ingest_block_not_panicked I adapter s h hl
              rw [hib] at hnp
              simp [PanicOr.isPanicked] at hnp
          | value res =>
              cases res with
              | error e => rfl
              | ok trip =>
                  obtain ⟨s1, ev, m1⟩ := trip
                  exact ih s1 (log ++ ev) m1 (fun h1 hm1 =>
                    ingest_block_missing_length I adapter s h s1 ev h1 (by rw [hib, hm1]))

/-- `do_poll_ingest` never panics when the latest block pointer's hash has
32 bytes. -/
theorem do_poll_ingest_not_panicked {σ ρ φ : Type} (I : PollingBlockIngestor σ ρ φ)
    (adapter : EthAdapter ρ φ) (fuel : Nat) (s : σ) (log : List Event) (lb : BlockPtr)
    (hlen : lb.hash.length = 32) :
    (do_poll_ingest I adapter fuel s log lb).isPanicked = false := by
  unfold do_poll_ingest
  cases hib : ingest_block I adapter s lb.hash with
  | panicked msg =>
      have hnp := ingest_block_not_panicked I adapter s lb.hash hlen
      rw [hib] at hnp
      simp [PanicOr.isPanicked] at hnp
  | value res =>
      cases res with
      | error e => rfl
      | ok trip =>
          obtain ⟨s1, ev1, missing⟩ := trip
          dsimp only
          have hloop := fill_missing_loop_not_panicked I adapter fuel s1 (log ++ ev1) missing
            (fun h1 hm1 => ingest_block_missing_length I adapter s lb.hash s1 ev1 h1
              (by rw [hib, hm1]))
          cases hfl : fill_missing_loop (fun st h => ingest_block I adapter st h) fuel s1
              (log ++ ev1) missing with
          | panicked m =>
              rw [hfl] at hloop
              simp [PanicOr.isPanicked] at hloop
          | value r2 =>
              cases r2 with
              | error e => rfl
              | ok t2 =>
                  obtain ⟨s2, log2, m2⟩ := t2
                  rfl

/-- `do_poll` never panics: every hash it passes to `ingest_block` is the
conversion of an `H256` (the latest header's pointer, or a missing
ancestor returned by the chain store), hence 32 bytes long. -/
theorem do_poll_not_panicked {σ ρ φ : Type} (I : PollingBlockIngestor σ ρ φ)
    (adapter : EthAdapter ρ φ) (fuel : Nat) (s : σ) :
    (do_poll I adapter fuel s).isPanicked = false := by
  unfold do_poll
  cases hh : I.chain_store.chain_head_ptr s with
  | error e => rfl
  | ok head_opt =>
    cases hl : adapter.latest_block_header with
    | error e => rfl
    | ok hdr =>
      obtain ⟨lh, ln⟩ := hdr
      cases head_opt with
      | some head_block =>
          by_cases heq : (⟨lh.toBlockHash, ln⟩ : BlockPtr) = head_block
          · simp [heq, PanicOr.isPanicked]
          · by_cases hlt : ((⟨lh.toBlockHash, ln⟩ : BlockPtr).number < head_block.number)
            · simp [heq, hlt, PanicOr.isPanicked]
            · simp only [if_neg heq, if_neg hlt]
              exact do_poll_ingest_not_panicked I adapter fuel s _ _ lh.property
      | none =>
          exact do_poll_ingest_not_panicked I adapter fuel s _ _ lh.property

/-- Claim C9: the `H256::from_slice` conversion makes `ingest_block`
panic exactly on hashes that are not 32 bytes, and inside the polling
cycle the panic branch is unreachable — `do_poll` never panics, because
every hash it feeds to `ingest_block` originates from an `H256`. -/
theorem claim_C9_from_slice_totality {σ ρ φ : Type} (I : PollingBlockIngestor σ ρ φ)
    (adapter : EthAdapter ρ φ) (fuel : Nat) (s : σ) :
    (∀ h : BlockHash, (ingest_block I adapter s h).isPanicked = true ↔ h.length ≠ 32)
    ∧ (do_poll I adapter fuel s).isPanicked = false :=
  ⟨fun h => ingest_block_isPanicked_iff I adapter s h,
    do_poll_not_panicked I adapter fuel s⟩

end GraphNode
